import Mathlib

/-
Verification of the multi-module workspace orchestration of the
gocraft-modules repository (a Makefile-driven Go workspace).

The embedded operations come from the two Makefiles in the repository:
module discovery (the MODULES variable), the per-module task loops
(deps, verify, build, test, test-coverage), the single-module selector
branch, the relative-linking toggler (makerelative / unmakerelative),
and the module-create registration step against modman.toml.

Manifests (go.mod files) and modman.toml are modelled as they are
processed by the Makefile: as ordered sequences of text lines.
File-system paths are modelled as component lists.
-/

namespace Gocraft

/-- The begin marker of the auto-generated replace block, from the
`unmakerelative` target (MARK_BEGIN in the Makefile). -/
def MARK_BEGIN : String := "# BEGIN makerelative (auto-generated)"

/-- The end marker of the auto-generated replace block, from the
`unmakerelative` target (MARK_END in the Makefile). -/
def MARK_END : String := "# END makerelative (auto-generated)"

/-- Line filter of the awk program run by `unmakerelative`:
`BEGIN{skip=0} { if(line==b){skip=1; next} if(line==e){skip=0; next}
if(!skip) print line }`.  The first argument is the `skip` state. -/
def unmakerelAux : Bool → List String → List String
  | _, [] => []
  | skip, l :: ls =>
    if l = MARK_BEGIN then unmakerelAux true ls
    else if l = MARK_END then unmakerelAux false ls
    else if skip then unmakerelAux skip ls
    else l :: unmakerelAux skip ls

/-- The Disable operation of the relative-linking toggler: the effect of
the `unmakerelative` target's awk filter on one manifest's lines. -/
def unmakerelative (c : List String) : List String := unmakerelAux false c

/-- One local-path override directive for an intra-workspace dependency,
as placed inside the auto-generated block (a go.mod replace directive). -/
def overrideDirective (dep rel : String) : String :=
  "replace " ++ (dep ++ (" => " ++ rel))

/-- Modelled from the spec: the Enable operation (the `makerelative`
target) is performed by the external `makerelative` binary, whose code is
not part of this repository.  Per the spec it inserts a uniquely delimited
block (begin/end marker pair) containing one override directive per
intra-workspace dependency, and never duplicates markers: if the block is
already present, Enable is a no-op. -/
def makerelative (overrides : List String) (c : List String) : List String :=
  if MARK_BEGIN ∈ c then c
  else c ++ (MARK_BEGIN :: (overrides ++ [MARK_END]))

/-- The all-modules branch of the `test` target (the same `set -e` loop
is used by deps, verify and build):
`set -e; for m in MODULES; do echo ...; ( cd m && go test ./... ); done`.
Under `set -e`, a failing per-module command terminates the shell at
once, so the loop stops at the first failure.  `task m` is the external
per-module command's success.  Returns the overall success and the list
of modules on which the task was attempted, in order. -/
def testAll (task : String → Bool) : List String → Bool × List String
  | [] => (true, [])
  | m :: ms =>
    if task m then ((testAll task ms).1, m :: (testAll task ms).2)
    else (false, [m])

/-- The single-module branch of the `test` target:
`if [ -n "$(MODULE)" ]; then ( cd "$(MODULE)" && go test ./... ); fi`.
`dirOk m` is whether `cd m` succeeds from the workspace root, `task m`
the external command's success.  Returns whether the task was executed
and the overall success.  The branch consults only the MODULE argument;
the discovered module list plays no part in it. -/
def testSingle (dirOk : String → Bool) (task : String → Bool) (m : String) :
    Bool × Bool :=
  if dirOk m then (true, task m) else (false, false)

/-- Leading POSIX blank characters of a line, as matched by the
`^[[:space:]]*` part of the grep pattern in `module-create`. -/
def stripIndent (l : String) : List Char :=
  l.data.dropWhile fun c =>
    c == ' ' || c == '\t' || c == '\n' || c == '\r' || c == '\x0b' || c == '\x0c'

/-- Whether the first list of characters is an initial segment of the
second (the grep pattern carries no end anchor). -/
def leadsWith : List Char → List Char → Bool
  | [], _ => true
  | _ :: _, [] => false
  | a :: as, b :: bs => a == b && leadsWith as bs

/-- The section header grep looks for in modman.toml:
`^[[:space:]]*\[modules\."MODULE"\]`. -/
def entryPattern (m : String) : List Char :=
  ("[modules.\"" ++ (m ++ "\"]")).data

/-- Whether modman.toml already contains a release-policy entry for the
module, as decided by the grep in `module-create`. -/
def hasModuleEntry (toml : List String) (m : String) : Bool :=
  toml.any fun l => leadsWith (entryPattern m) (stripIndent l)

/-- The three lines `module-create` appends to modman.toml for a new
module. -/
def moduleEntry (m : String) : List String :=
  ["    [modules.\"" ++ (m ++ "\"]"),
   "        no_tag = false",
   "        pre_release=\"\""]

/-- The `module-create` target's registration behaviour on modman.toml.
Exit codes from the recipe: 2 when MODULE is empty, 4 when MODULE is "/",
3 when the module path exists and is not a directory (`existsNonDir`).
Otherwise the grep-guarded update runs: the entry is appended only when
absent, and an already-present entry is skipped with a message — both
branches succeed.  Directory/go.mod creation and the changelog tool
invocation are external effects outside the manifest model. -/
def moduleCreate (existsNonDir : Bool) (toml : List String) (m : String) :
    Except Nat (List String) :=
  if m = "" then Except.error 2
  else if m = "/" then Except.error 4
  else if existsNonDir then Except.error 3
  else Except.ok (if hasModuleEntry toml m then toml else toml ++ moduleEntry m)

/-- The file-name transformation of the test-coverage targets:
`echo m | tr '/' '_'` (every slash replaced by an underscore). -/
def trSlash (m : String) : String :=
  String.mk (m.data.map fun c => if c = '/' then '_' else c)

/-- The coverage profile path of the CURDIR-based `test-coverage` target:
`COVER_ABS="$(CURDIR)/coverage"` and the per-module profile
`$COVER_ABS/$(echo m | tr '/' '_').out`. -/
def testCoverageProfile (curdir m : String) : String :=
  curdir ++ ("/coverage/" ++ (trSlash m ++ ".out"))

/-- A path joined from components with slashes, as the Makefile's
module identifiers are written (for example "http/gin"). -/
def joinPath (p : List String) : String := String.intercalate "/" p

/-- Resolution of a relative path against a base directory, with `..`
stepping to the parent, as the operating system resolves the profile
path passed to `go test` from inside the module directory. -/
def resolvePath (base : List String) : List String → List String
  | [] => base
  | c :: cs => resolvePath (if c = ".." then base.dropLast else base ++ [c]) cs

/-- The per-module coverage profile written by the CURDIR-based
`test-coverage` variant, as a component path: the absolute
`$(CURDIR)/coverage/<name>.out`. -/
def testCoverageAbsFile (curdir m : List String) : List String :=
  curdir ++ ["coverage", trSlash (joinPath m) ++ ".out"]

/-- The per-module coverage profile written by the second `test-coverage`
variant: from inside the module directory `curdir ++ m` it passes the
relative path `../coverage/<name>.out` to `go test`. -/
def testCoverageRelFile (curdir m : List String) : List String :=
  resolvePath (curdir ++ m) ["..", "coverage", trSlash (joinPath m) ++ ".out"]

/-- The all-modules `deps` loop of the first Makefile:
`for m in MODULES; do ( cd "$m" && go mod download && go mod tidy ); done`
under `set -e`.  The `cd` runs inside a subshell, so the outer working
directory is never changed.  `dirs` is the set of existing directories,
`ok t` the success of the per-module commands run in directory `t`.
Returns the directories the task ran in, in order, and overall success. -/
def depsSubshell (dirs : List (List String)) (ok : List String → Bool)
    (root : List String) : List (List String) → List (List String) × Bool
  | [] => ([], true)
  | m :: ms =>
    if dirs.contains (root ++ m) then
      if ok (root ++ m) then
        ((root ++ m) :: (depsSubshell dirs ok root ms).1,
          (depsSubshell dirs ok root ms).2)
      else ([root ++ m], false)
    else ([], false)

/-- The all-modules `deps` loop of the second Makefile:
`for m in MODULES; do cd "$m" && go mod download && go mod tidy; done`
under `set -e`.  Without a subshell the `cd` persists, so each
iteration's `cd` is resolved against the previous iteration's working
directory `cwd`. -/
def depsChained (dirs : List (List String)) (ok : List String → Bool)
    (cwd : List String) : List (List String) → List (List String) × Bool
  | [] => ([], true)
  | m :: ms =>
    if dirs.contains (cwd ++ m) then
      if ok (cwd ++ m) then
        ((cwd ++ m) :: (depsChained dirs ok (cwd ++ m) ms).1,
          (depsChained dirs ok (cwd ++ m) ms).2)
      else ([cwd ++ m], false)
    else ([], false)

/-- Byte-wise lexicographic comparison of character sequences, the order
in which `sort` arranges the discovered module paths. -/
def lexLe : List Char → List Char → Bool
  | [], _ => true
  | _ :: _, [] => false
  | a :: as, b :: bs =>
    if a.toNat < b.toNat then true
    else if b.toNat < a.toNat then false
    else lexLe as bs

/-- Lexicographic order on strings (byte order, as `sort` with the C
collation). -/
def strLe (a b : String) : Bool := lexLe a.data b.data

/-- Insertion of a string into a sorted list of strings. -/
def insertLe (x : String) : List String → List String
  | [] => [x]
  | y :: ys => if strLe x y then x :: y :: ys else y :: insertLe x ys

/-- Sorting of the discovered directory names, as done by `sort`. -/
def sortStrings : List String → List String
  | [] => []
  | x :: xs => insertLe x (sortStrings xs)

/-- Removal of adjacent duplicate lines, the `-u` of `sort -u`. -/
def dedupAdj : List String → List String
  | [] => []
  | [x] => [x]
  | x :: y :: ys => if x = y then dedupAdj (y :: ys) else x :: dedupAdj (y :: ys)

/-- Module discovery, the MODULES variable of the Makefile:
`find . -type f -name go.mod -not -path './go.mod' -exec dirname {} ;`
piped through `sed 's|^./||' | sort -u`.  The input is the workspace's
file tree as a list of file paths (component lists relative to the
root); the result keeps the directories of all go.mod files except the
workspace root's own, sorted with duplicates removed. -/
def MODULES (files : List (List String)) : List String :=
  dedupAdj (sortStrings
    ((files.filter fun p => (p.getLast? == some "go.mod") && !(p == ["go.mod"])).map
      fun p => joinPath p.dropLast))

/-- The file tree of the discovery scenario: manifests at exactly
http/gin, http/chi, grpc/client, grpc/server and db/gorm, plus assorted
non-manifest files, and no manifest at the root. -/
def demoFiles : List (List String) :=
  [["README.md"], ["Makefile"], ["internal", "meta", "meta.go"],
   ["http", "gin", "go.mod"], ["http", "gin", "main.go"],
   ["http", "chi", "go.mod"],
   ["grpc", "client", "go.mod"],
   ["grpc", "server", "go.mod"],
   ["db", "gorm", "go.mod"], ["db", "gorm", "model.go"]]

end Gocraft

namespace Gocraft

theorem unmakerelAux_begin (r : List String) :
    unmakerelAux false (MARK_BEGIN :: r) = unmakerelAux true r := by
  simp [unmakerelAux]

theorem unmakerelAux_append (c r : List String)
    (h : ∀ l ∈ c, l ≠ MARK_BEGIN ∧ l ≠ MARK_END) :
    unmakerelAux false (c ++ r) = c ++ unmakerelAux false r := by
  induction c with
  | nil => rfl
  | cons x xs ih =>
    have hx := h x (List.mem_cons_self x xs)
    simp only [List.cons_append, unmakerelAux, if_neg hx.1, if_neg hx.2, if_neg Bool.false_ne_true]
    exact congrArg (x :: ·) (ih fun l hl => h l (List.mem_cons_of_mem x hl))

theorem unmakerelAux_clean (c : List String)
    (h : ∀ l ∈ c, l ≠ MARK_BEGIN ∧ l ≠ MARK_END) :
    unmakerelAux false c = c := by
  have := unmakerelAux_append c [] h
  simpa [unmakerelAux] using this

theorem unmakerelAux_skipAll (rest : List String)
    (h : ∀ l ∈ rest, l ≠ MARK_END) :
    unmakerelAux true rest = [] := by
  induction rest with
  | nil => rfl
  | cons x xs ih =>
    have hx := h x (List.mem_cons_self x xs)
    by_cases hb : x = MARK_BEGIN
    · simp only [unmakerelAux, if_pos hb]
      exact ih fun l hl => h l (List.mem_cons_of_mem x hl)
    · simp only [unmakerelAux, if_neg hb, if_neg hx, if_pos rfl]
      exact ih fun l hl => h l (List.mem_cons_of_mem x hl)

theorem unmakerelAux_skipTo (mid r : List String)
    (h : ∀ l ∈ mid, l ≠ MARK_END) :
    unmakerelAux true (mid ++ (MARK_END :: r)) = unmakerelAux false r := by
  induction mid with
  | nil =>
    have hbe : MARK_END ≠ MARK_BEGIN := by decide
    simp [unmakerelAux, if_neg hbe]
  | cons x xs ih =>
    have hx := h x (List.mem_cons_self x xs)
    by_cases hb : x = MARK_BEGIN
    · simp only [List.cons_append, unmakerelAux, if_pos hb]
      exact ih fun l hl => h l (List.mem_cons_of_mem x hl)
    · simp only [List.cons_append, unmakerelAux, if_neg hb, if_neg hx, if_pos rfl]
      exact ih fun l hl => h l (List.mem_cons_of_mem x hl)

theorem overrideDirective_ne_end (dep rel : String) :
    overrideDirective dep rel ≠ MARK_END := by
  intro h
  have h2 := congrArg String.data h
  rw [show overrideDirective dep rel = "replace " ++ (dep ++ (" => " ++ rel)) from rfl] at h2
  rw [String.data_append] at h2
  rw [show ("replace " : String).data = 'r' :: ("eplace " : String).data from rfl] at h2
  rw [show MARK_END.data = '#' :: (" END makerelative (auto-generated)" : String).data from rfl] at h2
  rw [List.cons_append] at h2
  injection h2 with h3 h4
  exact absurd h3 (by decide)

/-- C1 counterexample: the round-trip law fails on a manifest that
already contains a line equal to the end marker: Enable inserts the
block, and Disable then also deletes the pre-existing marker line, so the
original content is not restored. -/
theorem makerelative_roundTrip_cex :
    unmakerelative
        (makerelative [overrideDirective "example.com/ws/db" "../db"] [MARK_END])
      ≠ [MARK_END] := by
  decide

/-- C1 (amended): for every manifest content none of whose lines equals
the begin or end marker, and every set of intra-workspace dependencies,
Disable (the unmakerelative awk filter) applied after Enable (the
spec-modelled makerelative block insertion) restores the manifest
byte-for-byte. -/
theorem makerelative_roundTrip (deps : List (String × String)) (c : List String)
    (h : ∀ l ∈ c, l ≠ MARK_BEGIN ∧ l ≠ MARK_END) :
    unmakerelative (makerelative (deps.map fun d => overrideDirective d.1 d.2) c) = c := by
  have hnb : MARK_BEGIN ∉ c := fun hm => (h _ hm).1 rfl
  have hov : ∀ l ∈ deps.map (fun d => overrideDirective d.1 d.2), l ≠ MARK_END := by
    intro l hl
    obtain ⟨d, _, rfl⟩ := List.mem_map.mp hl
    exact overrideDirective_ne_end d.1 d.2
  unfold makerelative
  rw [if_neg hnb]
  unfold unmakerelative
  rw [unmakerelAux_append c _ h, unmakerelAux_begin,
    show (deps.map fun d => overrideDirective d.1 d.2) ++ [MARK_END]
        = (deps.map fun d => overrideDirective d.1 d.2) ++ (MARK_END :: []) from rfl,
    unmakerelAux_skipTo _ [] hov]
  simp [unmakerelAux]

/-- C1 witness: the round-trip theorem applied to a concrete manifest and
a concrete intra-workspace dependency set. -/
theorem makerelative_roundTrip_witness :
    unmakerelative
        (makerelative ([("example.com/ws/db", "../db")].map fun d => overrideDirective d.1 d.2)
          ["module example.com/ws/http/gin", "", "go 1.25",
           "require example.com/ws/db v1.2.3"])
      = ["module example.com/ws/http/gin", "", "go 1.25",
         "require example.com/ws/db v1.2.3"] :=
  makerelative_roundTrip [("example.com/ws/db", "../db")] _ (by decide)

/-- C3: the Disable operation removes exactly the begin-marker line, the
end-marker line and the lines between them, leaving every other line
byte-for-byte unchanged; and on a manifest with no marker lines it is the
identity (the awk filter is total, so no error is signalled). -/
theorem unmakerelative_exact :
    (∀ pre mid post : List String,
        (∀ l ∈ pre, l ≠ MARK_BEGIN ∧ l ≠ MARK_END) →
        (∀ l ∈ mid, l ≠ MARK_BEGIN ∧ l ≠ MARK_END) →
        (∀ l ∈ post, l ≠ MARK_BEGIN ∧ l ≠ MARK_END) →
        unmakerelative (pre ++ (MARK_BEGIN :: (mid ++ (MARK_END :: post)))) = pre ++ post)
    ∧ (∀ c : List String,
        (∀ l ∈ c, l ≠ MARK_BEGIN ∧ l ≠ MARK_END) → unmakerelative c = c) := by
  constructor
  · intro pre mid post hpre hmid hpost
    unfold unmakerelative
    rw [unmakerelAux_append pre _ hpre, unmakerelAux_begin,
      unmakerelAux_skipTo mid post (fun l hl => (hmid l hl).2),
      unmakerelAux_clean post hpost]
  · intro c hc
    exact unmakerelAux_clean c hc

/-- C3 witness: exact removal on a concrete manifest with a marker block,
and the identity on a concrete manifest without markers. -/
theorem unmakerelative_exact_witness :
    unmakerelative
        (["module example.com/ws/db/gorm", "go 1.25"]
          ++ (MARK_BEGIN :: (["replace example.com/ws/http/gin => ../../http/gin"]
            ++ (MARK_END :: ["require gorm.io/gorm v1.25.0"]))))
      = ["module example.com/ws/db/gorm", "go 1.25"] ++ ["require gorm.io/gorm v1.25.0"]
    ∧ unmakerelative ["module example.com/ws/db/gorm", "go 1.25"]
      = ["module example.com/ws/db/gorm", "go 1.25"] :=
  ⟨unmakerelative_exact.1 _ _ _ (by decide) (by decide) (by decide),
    unmakerelative_exact.2 _ (by decide)⟩

/-- C4 counterexample: on a manifest whose marker block is malformed (a
begin marker with no matching end marker), Disable does not leave the
content unchanged: it deletes the begin marker and everything after it. -/
theorem unmakerelative_malformed_cex :
    unmakerelative [MARK_BEGIN, "replace example.com/ws/db => ../db"]
      ≠ [MARK_BEGIN, "replace example.com/ws/db => ../db"] := by
  decide

/-- C4 (amended): on a manifest with a begin marker and no matching end
marker, Disable removes the begin marker and every following line (a
partial edit of the manifest); the awk filter is total, so no error is
reported for the module. -/
theorem unmakerelative_malformed (pre rest : List String)
    (hpre : ∀ l ∈ pre, l ≠ MARK_BEGIN ∧ l ≠ MARK_END)
    (hrest : ∀ l ∈ rest, l ≠ MARK_END) :
    unmakerelative (pre ++ (MARK_BEGIN :: rest)) = pre := by
  unfold unmakerelative
  rw [unmakerelAux_append pre _ hpre, unmakerelAux_begin,
    unmakerelAux_skipAll rest hrest, List.append_nil]

/-- C4 witness: the malformed-block theorem applied to a concrete
manifest with an unterminated marker block. -/
theorem unmakerelative_malformed_witness :
    unmakerelative
        (["module example.com/ws/grpc/server"]
          ++ (MARK_BEGIN :: ["replace example.com/ws/grpc/client => ../client"]))
      = ["module example.com/ws/grpc/server"] :=
  unmakerelative_malformed _ _ (by decide) (by decide)

/-- C2 counterexample: with modules db/gorm, grpc/client, grpc/server and
a task failing on db/gorm, the `set -e` loop stops at the first failure:
grpc/client and grpc/server are never attempted, contrary to the claim
that every later module is still attempted. -/
theorem testAll_cex :
    (testAll (fun m => m != "db/gorm") ["db/gorm", "grpc/client", "grpc/server"]).2
        = ["db/gorm"]
    ∧ "grpc/client" ∉
        (testAll (fun m => m != "db/gorm") ["db/gorm", "grpc/client", "grpc/server"]).2 := by
  decide

/-- C2 (amended): the workspace-wide task loop succeeds exactly when the
task succeeds on every module, and it attempts exactly the modules up to
and including the first failing one (no module after the first failure is
attempted, because the loop runs under `set -e`). -/
theorem testAll_aggregation (task : String → Bool) (ms : List String) :
    ((testAll task ms).1 = true ↔ ∀ m ∈ ms, task m = true)
    ∧ (testAll task ms).2 = ms.takeWhile task ++ (ms.dropWhile task).take 1 := by
  induction ms with
  | nil => simp [testAll]
  | cons m ms ih =>
    cases h : task m with
    | true =>
      constructor
      · simp only [testAll, h, if_pos rfl]
        simp [ih.1, h]
      · simp [testAll, h, List.takeWhile_cons, List.dropWhile_cons, ih.2]
    | false =>
      have e : testAll task (m :: ms) = (false, [m]) := by
        simp [testAll, h]
      constructor
      · rw [e]
        constructor
        · intro hf
          simp at hf
        · intro hall
          rw [hall m (List.mem_cons_self m ms)] at h
          simp at h
      · rw [e]
        simp [List.takeWhile_cons, List.dropWhile_cons, h]

/-- C6 counterexample: with the five discovered modules of the workspace,
selecting MODULE=docs (a directory that exists but is not a discovered
module) executes the task there and succeeds — the runner never validates
the selector against the discovered module list, and no
UnknownModuleError exists. -/
theorem testSingle_cex :
    "docs" ∉ ["db/gorm", "grpc/client", "grpc/server", "http/chi", "http/gin"]
    ∧ testSingle (fun d => d == "docs") (fun _ => true) "docs" = (true, true) := by
  decide

/-- C6 (amended): for a single explicit module selector the runner does
not consult the discovered module list at all: whenever the directory
change succeeds it executes the task there (even for a path that is not a
discovered module), and it fails only when the directory change fails. -/
theorem testSingle_no_validation (modules : List String) (dirOk task : String → Bool)
    (m : String) (_hm : m ∉ modules) :
    (dirOk m = true → testSingle dirOk task m = (true, task m))
    ∧ (dirOk m = false → testSingle dirOk task m = (false, false)) := by
  constructor <;> intro h <;> simp [testSingle, h]

/-- C6 witness: the no-validation theorem applied to the concrete
selector `internal`, which is not among the five discovered modules. -/
theorem testSingle_no_validation_witness :
    testSingle (fun d => d == "internal") (fun _ => true) "internal" = (true, true) :=
  (testSingle_no_validation ["db/gorm", "grpc/client", "grpc/server", "http/chi", "http/gin"]
    (fun d => d == "internal") (fun _ => true) "internal" (by decide)).1 (by decide)

/-- C7 counterexample: registering cache/mem into an empty modman.toml
appends its entry, and registering it a second time returns normally with
the manifest unchanged — a guarded no-op with exit status 0, not a
DuplicateModuleError. -/
theorem moduleCreate_duplicate_cex :
    moduleCreate false ([] : List String) "cache/mem" = Except.ok (moduleEntry "cache/mem")
    ∧ moduleCreate false (moduleEntry "cache/mem") "cache/mem"
        = Except.ok (moduleEntry "cache/mem") :=
  ⟨rfl, rfl⟩

/-- C7 (amended): module-create appends a release-policy entry to
modman.toml only when no entry for the path exists; registering a path
that already has an entry is a guarded no-op that succeeds (a skip
message, exit status 0), not an error. -/
theorem moduleCreate_guarded_noop :
    (∀ (toml : List String) (m : String), m ≠ "" → m ≠ "/" →
        hasModuleEntry toml m = true → moduleCreate false toml m = Except.ok toml)
    ∧ (∀ (toml : List String) (m : String), m ≠ "" → m ≠ "/" →
        hasModuleEntry toml m = false →
        moduleCreate false toml m = Except.ok (toml ++ moduleEntry m)) := by
  constructor <;> intro toml m h1 h2 h3 <;> simp [moduleCreate, h1, h2, h3]

/-- C7 witness: the guarded no-op theorem at the concrete module path
cache/mem, first against an empty manifest and then against the manifest
already holding its entry. -/
theorem moduleCreate_guarded_noop_witness :
    moduleCreate false ([] : List String) "cache/mem"
        = Except.ok ([] ++ moduleEntry "cache/mem")
    ∧ moduleCreate false (moduleEntry "cache/mem") "cache/mem"
        = Except.ok (moduleEntry "cache/mem") :=
  ⟨moduleCreate_guarded_noop.2 [] "cache/mem" (by decide) (by decide) rfl,
    moduleCreate_guarded_noop.1 (moduleEntry "cache/mem") "cache/mem"
      (by decide) (by decide) rfl⟩

/-- C8 counterexample: the distinct module paths a/b and a_b are mapped
to the same coverage profile file, so distinct module paths can collide. -/
theorem testCoverage_collision_cex :
    testCoverageProfile "/ws" "a/b" = testCoverageProfile "/ws" "a_b"
    ∧ ("a/b" : String) ≠ "a_b" := by
  exact ⟨rfl, by decide⟩

theorem mapSlash_inj (xs : List Char) : ∀ (ys : List Char),
    (∀ c ∈ xs, c ≠ '_') → (∀ c ∈ ys, c ≠ '_') →
    xs.map (fun c => if c = '/' then '_' else c)
      = ys.map (fun c => if c = '/' then '_' else c) → xs = ys := by
  induction xs with
  | nil =>
    intro ys _ _ h
    cases ys with
    | nil => rfl
    | cons y ys => simp at h
  | cons x xs ih =>
    intro ys hx hy h
    cases ys with
    | nil => simp at h
    | cons y ys =>
      simp only [List.map_cons, List.cons.injEq] at h
      have hxy : x = y := by
        have h1 := h.1
        by_cases hxs : x = '/'
        · by_cases hys : y = '/'
          · rw [hxs, hys]
          · rw [if_pos hxs, if_neg hys] at h1
            exact absurd h1.symm (hy y (List.mem_cons_self y ys))
        · by_cases hys : y = '/'
          · rw [if_neg hxs, if_pos hys] at h1
            exact absurd h1 (hx x (List.mem_cons_self x xs))
          · rwa [if_neg hxs, if_neg hys] at h1
      rw [hxy]
      exact congrArg (y :: ·)
        (ih ys (fun c hc => hx c (List.mem_cons_of_mem x hc))
          (fun c hc => hy c (List.mem_cons_of_mem y hc)) h.2)

/-- C8 (amended): each module's coverage artifact goes to a file in the
shared coverage directory named by the module path with slashes replaced
by underscores, and distinct module paths that themselves contain no
underscore never collide on the same coverage file. -/
theorem testCoverage_no_collision (curdir a b : String)
    (ha : ∀ c ∈ a.data, c ≠ '_') (hb : ∀ c ∈ b.data, c ≠ '_')
    (hne : a ≠ b) :
    testCoverageProfile curdir a ≠ testCoverageProfile curdir b := by
  intro h
  apply hne
  have h2 := congrArg String.data h
  simp only [testCoverageProfile, String.data_append] at h2
  have h3 := List.append_cancel_left h2
  have h4 := List.append_cancel_left h3
  have h5 := List.append_cancel_right h4
  exact String.ext (mapSlash_inj a.data b.data ha hb (by simpa [trSlash] using h5))

/-- C8 witness: the no-collision theorem applied to the concrete distinct
underscore-free module paths db/gorm and grpc/client. -/
theorem testCoverage_no_collision_witness :
    testCoverageProfile "/ws" "db/gorm" ≠ testCoverageProfile "/ws" "grpc/client" :=
  testCoverage_no_collision "/ws" "db/gorm" "grpc/client" (by decide) (by decide) (by decide)

/-- C9 counterexample: for the nested module http/gin under workspace
root ws, the CURDIR-based variant writes ws/coverage/http_gin.out while
the relative variant writes ws/http/coverage/http_gin.out — different
files, so the two implementations are not equivalent. -/
theorem testCoverage_variants_cex :
    testCoverageRelFile ["ws"] ["http", "gin"] ≠ testCoverageAbsFile ["ws"] ["http", "gin"] := by
  decide

theorem dotOut_ne_parent (s : String) : s ++ ".out" ≠ ".." := by
  intro h
  have h2 := congrArg (fun t : String => t.data.length) h
  simp only [String.data_append, List.length_append] at h2
  rw [show (".out" : String).data.length = 4 from rfl,
    show (".." : String).data.length = 2 from rfl] at h2
  omega

theorem resolvePath_up (base : List String) (x y : String)
    (hx : x ≠ "..") (hy : y ≠ "..") :
    resolvePath base ["..", x, y] = (base.dropLast ++ [x]) ++ [y] := by
  simp [resolvePath, hx, hy]

/-- C9 (amended): the two test-coverage variants write the same file
exactly for top-level (single-component) module paths; for a nested
module path the relative variant resolves the profile under the module's
parent directory, not under the workspace root, so the files differ. -/
theorem testCoverage_variants_agree (curdir m : List String) :
    (m.length = 1 → testCoverageRelFile curdir m = testCoverageAbsFile curdir m)
    ∧ (2 ≤ m.length → testCoverageRelFile curdir m ≠ testCoverageAbsFile curdir m) := by
  have hx : ("coverage" : String) ≠ ".." := by decide
  have hy : trSlash (joinPath m) ++ ".out" ≠ ".." := dotOut_ne_parent _
  constructor
  · intro h1
    obtain ⟨a, rfl⟩ := List.length_eq_one.mp h1
    rw [testCoverageRelFile, resolvePath_up _ _ _ hx hy, List.dropLast_concat]
    simp [testCoverageAbsFile]
  · intro h2 heq
    have hlen := congrArg List.length heq
    rw [testCoverageRelFile, resolvePath_up _ _ _ hx hy] at hlen
    simp only [testCoverageAbsFile, List.length_append, List.length_dropLast,
      List.length_cons, List.length_singleton] at hlen
    omega

/-- C9 witness: agreement on the concrete single-component module api and
disagreement on the concrete nested module grpc/client. -/
theorem testCoverage_variants_witness :
    testCoverageRelFile ["ws"] ["api"] = testCoverageAbsFile ["ws"] ["api"]
    ∧ testCoverageRelFile ["ws"] ["grpc", "client"]
        ≠ testCoverageAbsFile ["ws"] ["grpc", "client"] :=
  ⟨(testCoverage_variants_agree ["ws"] ["api"]).1 rfl,
    (testCoverage_variants_agree ["ws"] ["grpc", "client"]).2 (by decide)⟩

/-- C10 counterexample: in the chained (non-subshell) deps loop over
modules a and b under root ws, after the first iteration the shell is
left in ws/a, the second `cd b` is resolved relative to ws/a and fails,
so the executed directories are not the root-relative module directories
the claim requires. -/
theorem depsChained_cex :
    (depsChained [["ws"], ["ws", "a"], ["ws", "b"]] (fun _ => true) ["ws"]
        [["a"], ["b"]]).1
      ≠ [["ws", "a"], ["ws", "b"]] := by
  decide

/-- C10 (amended): in the subshell-based loop every executed per-module
task runs in the module's directory under the workspace root (the
executed directories are an initial segment of the root-relative module
directories), while in the chained loop the working directory persists:
whenever a second task is executed, its directory is resolved relative to
the first module's directory. -/
theorem deps_workingDirectory :
    (∀ (dirs : List (List String)) (ok : List String → Bool) (root : List String)
        (ms : List (List String)),
        ∃ n, (depsSubshell dirs ok root ms).1 = (ms.map fun m => root ++ m).take n)
    ∧ (∀ (dirs : List (List String)) (ok : List String → Bool) (cwd m₁ m₂ : List String)
        (rest : List (List String)),
        2 ≤ ((depsChained dirs ok cwd (m₁ :: m₂ :: rest)).1).length →
        ((depsChained dirs ok cwd (m₁ :: m₂ :: rest)).1)[1]? = some ((cwd ++ m₁) ++ m₂)) := by
  constructor
  · intro dirs ok root ms
    induction ms with
    | nil => exact ⟨0, rfl⟩
    | cons m ms ih =>
      by_cases hc : (root ++ m) ∈ dirs
      · by_cases ho : ok (root ++ m) = true
        · obtain ⟨n, hn⟩ := ih
          exact ⟨n + 1, by simp [depsSubshell, hc, ho, hn]⟩
        · exact ⟨1, by simp [depsSubshell, hc, ho]⟩
      · exact ⟨0, by simp [depsSubshell, hc]⟩
  · intro dirs ok cwd m₁ m₂ rest hlen
    by_cases hc1 : (cwd ++ m₁) ∈ dirs
    · by_cases ho1 : ok (cwd ++ m₁) = true
      · by_cases hc2 : cwd ++ (m₁ ++ m₂) ∈ dirs
        · by_cases ho2 : ok (cwd ++ (m₁ ++ m₂)) = true
          · simp [depsChained, hc1, ho1, hc2, ho2]
          · simp [depsChained, hc1, ho1, hc2, ho2]
        · exfalso
          simp [depsChained, hc1, ho1, hc2] at hlen
      · exfalso
        simp [depsChained, hc1, ho1] at hlen
    · exfalso
      simp [depsChained, hc1] at hlen

/-- C10 witness: the subshell part at a concrete two-module workspace,
and the chained part at a concrete run in which two tasks execute and the
second runs inside the first module's directory. -/
theorem deps_workingDirectory_witness :
    (∃ n, (depsSubshell [["ws", "a"], ["ws", "b"]] (fun _ => true) ["ws"]
        [["a"], ["b"]]).1 = ([["a"], ["b"]].map fun m => ["ws"] ++ m).take n)
    ∧ ((depsChained [["ws", "a"], ["ws", "a", "b"]] (fun _ => true) ["ws"]
        [["a"], ["b"]]).1)[1]? = some ((["ws"] ++ ["a"]) ++ ["b"]) :=
  ⟨deps_workingDirectory.1 [["ws", "a"], ["ws", "b"]] (fun _ => true) ["ws"] [["a"], ["b"]],
    deps_workingDirectory.2 [["ws", "a"], ["ws", "a", "b"]] (fun _ => true) ["ws"]
      ["a"] ["b"] [] (by decide)⟩

theorem char_toNat_inj (a b : Char) (h : a.toNat = b.toNat) : a = b := by
  have h2 := congrArg Char.ofNat h
  rwa [Char.ofNat_toNat, Char.ofNat_toNat] at h2

theorem lexLe_total (xs : List Char) : ∀ ys, lexLe xs ys = true ∨ lexLe ys xs = true := by
  induction xs with
  | nil => exact fun ys => Or.inl rfl
  | cons a as ih =>
    intro ys
    cases ys with
    | nil => exact Or.inr rfl
    | cons b bs =>
      by_cases hab : a.toNat < b.toNat
      · exact Or.inl (by simp [lexLe, hab])
      · by_cases hba : b.toNat < a.toNat
        · exact Or.inr (by simp [lexLe, hba])
        · cases ih bs with
          | inl h => exact Or.inl (by simp [lexLe, hab, hba, h])
          | inr h => exact Or.inr (by simp [lexLe, hab, hba, h])

theorem lexLe_trans (xs : List Char) :
    ∀ ys zs, lexLe xs ys = true → lexLe ys zs = true → lexLe xs zs = true := by
  induction xs with
  | nil => intro ys zs _ _; rfl
  | cons a as ih =>
    intro ys zs hxy hyz
    cases ys with
    | nil => simp [lexLe] at hxy
    | cons b bs =>
      cases zs with
      | nil => simp [lexLe] at hyz
      | cons c cs =>
        by_cases hab : a.toNat < b.toNat
        · by_cases hbc : b.toNat < c.toNat
          · simp [lexLe, Nat.lt_trans hab hbc]
          · by_cases hcb : c.toNat < b.toNat
            · simp [lexLe, hbc, hcb] at hyz
            · have hac : a.toNat < c.toNat := by omega
              simp [lexLe, hac]
        · by_cases hba : b.toNat < a.toNat
          · simp [lexLe, hab, hba] at hxy
          · by_cases hbc : b.toNat < c.toNat
            · have hac : a.toNat < c.toNat := by omega
              simp [lexLe, hac]
            · by_cases hcb : c.toNat < b.toNat
              · simp [lexLe, hbc, hcb] at hyz
              · have h1 : lexLe as bs = true := by simpa [lexLe, hab, hba] using hxy
                have h2 : lexLe bs cs = true := by simpa [lexLe, hbc, hcb] using hyz
                have hac : ¬a.toNat < c.toNat := by omega
                have hca : ¬c.toNat < a.toNat := by omega
                simp [lexLe, hac, hca, ih bs cs h1 h2]

theorem lexLe_antisymm (xs : List Char) :
    ∀ ys, lexLe xs ys = true → lexLe ys xs = true → xs = ys := by
  induction xs with
  | nil =>
    intro ys _ hyx
    cases ys with
    | nil => rfl
    | cons b bs => simp [lexLe] at hyx
  | cons a as ih =>
    intro ys hxy hyx
    cases ys with
    | nil => simp [lexLe] at hxy
    | cons b bs =>
      by_cases hab : a.toNat < b.toNat
      · simp [lexLe, hab, show ¬b.toNat < a.toNat by omega] at hyx
      · by_cases hba : b.toNat < a.toNat
        · simp [lexLe, hab, hba] at hxy
        · have h1 : lexLe as bs = true := by simpa [lexLe, hab, hba] using hxy
          have h2 : lexLe bs as = true := by simpa [lexLe, hab, hba] using hyx
          rw [char_toNat_inj a b (by omega)]
          exact congrArg (b :: ·) (ih bs h1 h2)

theorem strLe_trans {a b c : String} (h1 : strLe a b = true) (h2 : strLe b c = true) :
    strLe a c = true :=
  lexLe_trans a.data b.data c.data h1 h2

theorem strLe_antisymm {a b : String} (h1 : strLe a b = true) (h2 : strLe b a = true) :
    a = b :=
  String.ext (lexLe_antisymm a.data b.data h1 h2)

theorem mem_insertLe (x : String) (l : List String) (a : String) :
    a ∈ insertLe x l ↔ a = x ∨ a ∈ l := by
  induction l with
  | nil => simp [insertLe]
  | cons y ys ih =>
    by_cases h : strLe x y = true
    · simp [insertLe, h, List.mem_cons]
    · rw [insertLe, if_neg h]
      simp only [List.mem_cons, ih]
      tauto

theorem pairwise_insertLe (x : String) (l : List String)
    (hl : l.Pairwise fun a b => strLe a b = true) :
    (insertLe x l).Pairwise fun a b => strLe a b = true := by
  induction l with
  | nil => simp [insertLe]
  | cons y ys ih =>
    rcases List.pairwise_cons.mp hl with ⟨hy, hys⟩
    by_cases h : strLe x y = true
    · rw [insertLe, if_pos h]
      refine List.pairwise_cons.mpr ⟨?_, hl⟩
      intro z hz
      rcases List.mem_cons.mp hz with rfl | hz'
      · exact h
      · exact strLe_trans h (hy z hz')
    · rw [insertLe, if_neg h]
      refine List.pairwise_cons.mpr ⟨?_, ih hys⟩
      intro z hz
      rcases (mem_insertLe x ys z).mp hz with heq | hz'
      · rw [heq]
        rcases lexLe_total (String.data x) (String.data y) with ht | ht
        · exact absurd ht h
        · exact ht
      · exact hy z hz'

theorem pairwise_sortStrings (l : List String) :
    (sortStrings l).Pairwise fun a b => strLe a b = true := by
  induction l with
  | nil => simp [sortStrings]
  | cons x xs ih => exact pairwise_insertLe x _ ih

theorem mem_sortStrings (l : List String) (a : String) :
    a ∈ sortStrings l ↔ a ∈ l := by
  induction l with
  | nil => simp [sortStrings]
  | cons x xs ih => simp [sortStrings, mem_insertLe, ih]

theorem mem_dedupAdj (l : List String) (a : String) : a ∈ dedupAdj l ↔ a ∈ l := by
  induction l with
  | nil => simp [dedupAdj]
  | cons x xs ih =>
    cases xs with
    | nil => simp [dedupAdj]
    | cons y ys =>
      by_cases h : x = y
      · rw [dedupAdj, if_pos h, ih, h]
        simp [List.mem_cons]
      · rw [dedupAdj, if_neg h]
        simp [List.mem_cons, ih]

theorem pairwise_dedupAdj (l : List String)
    (hl : l.Pairwise fun a b => strLe a b = true) :
    (dedupAdj l).Pairwise fun a b => strLe a b = true ∧ a ≠ b := by
  induction l with
  | nil => simp [dedupAdj]
  | cons x xs ih =>
    cases xs with
    | nil => simp [dedupAdj]
    | cons y ys =>
      rcases List.pairwise_cons.mp hl with ⟨hx, hrest⟩
      by_cases h : x = y
      · rw [dedupAdj, if_pos h]
        exact ih hrest
      · rw [dedupAdj, if_neg h]
        refine List.pairwise_cons.mpr ⟨?_, ih hrest⟩
        intro z hz
        have hzmem : z ∈ y :: ys := (mem_dedupAdj (y :: ys) z).mp hz
        refine ⟨hx z hzmem, ?_⟩
        rcases List.mem_cons.mp hzmem with rfl | hz'
        · exact h
        · intro hxz
          have hyz : strLe y z = true := (List.pairwise_cons.mp hrest).1 z hz'
          have hxy : strLe x y = true := hx y (List.mem_cons_self y ys)
          have hyx : strLe y x = true := by rw [hxz]; exact hyz
          exact h (strLe_antisymm hxy hyx)

theorem mem_MODULES (files : List (List String)) (d : String) :
    d ∈ MODULES files ↔
      ∃ p ∈ files, p.getLast? = some "go.mod" ∧ p ≠ ["go.mod"]
        ∧ joinPath p.dropLast = d := by
  unfold MODULES
  rw [mem_dedupAdj, mem_sortStrings]
  simp only [List.mem_map, List.mem_filter, Bool.and_eq_true, beq_iff_eq,
    Bool.not_eq_true', beq_eq_false_iff_ne]
  constructor
  · rintro ⟨p, ⟨hp, h1, h2⟩, rfl⟩
    exact ⟨p, hp, h1, h2, rfl⟩
  · rintro ⟨p, hp, h1, h2, rfl⟩
    exact ⟨p, ⟨hp, h1, h2⟩, rfl⟩

/-- C5: module discovery returns the directories holding a go.mod file,
excluding the workspace root's own manifest, sorted lexicographically
with duplicates removed; on the scenario tree (manifests at exactly
http/gin, http/chi, grpc/client, grpc/server, db/gorm, none at the root)
it returns exactly those five paths in sorted order, and a manifest at
the root leaves the result unchanged. -/
theorem MODULES_discovery :
    (∀ files : List (List String),
        (MODULES files).Pairwise fun a b => strLe a b = true ∧ a ≠ b)
    ∧ (∀ (files : List (List String)) (d : String),
        d ∈ MODULES files ↔
          ∃ p ∈ files, p.getLast? = some "go.mod" ∧ p ≠ ["go.mod"]
            ∧ joinPath p.dropLast = d)
    ∧ MODULES demoFiles = ["db/gorm", "grpc/client", "grpc/server", "http/chi", "http/gin"]
    ∧ MODULES (["go.mod"] :: demoFiles)
        = ["db/gorm", "grpc/client", "grpc/server", "http/chi", "http/gin"] := by
  refine ⟨fun files => pairwise_dedupAdj _ (pairwise_sortStrings _), mem_MODULES, ?_, ?_⟩
  · decide
  · decide

end Gocraft
